import Mathlib

/-!
# Verification of the pycaps Whisper transcript normalizer

Shallow embedding of `src/pycaps/transcriber/whisper_audio_transcriber.py`
(class `WhisperAudioTranscriber`) and proofs about it.

Modelling conventions:
* Python numbers (`float` results) are modelled as rationals `ℚ`; the
  degenerate-span bump `+ 0.01` is the exact rational `1/100`.
* A Python `dict` at the top level of the raw result is a `List (String × PyVal)`
  of fields; nested values are `PyVal`.
* Exceptions (`KeyError`, `TypeError`, `ValueError`, `RuntimeError`) are
  modelled with `Except`.
* `str.strip()` is `pyStrip` (drop leading/trailing whitespace characters).
-/

namespace Pycaps

/-- A Python value as it can occur inside a Whisper raw transcription result. -/
inductive PyVal where
  | none
  | bool (b : Bool)
  | num (q : ℚ)
  | str (s : String)
  | list (xs : List PyVal)
  | dict (fields : List (String × PyVal))

/-- A Python exception raised while traversing the raw result. -/
inductive PyErr where
  | keyError (key : String)
  | typeError
  | valueError
deriving DecidableEq, Repr

/-- Value of a non-empty list of decimal digit characters. -/
def natOfDigits (cs : List Char) : Nat :=
  cs.foldl (fun acc c => acc * 10 + (c.toNat - 48)) 0

/-- Drop leading whitespace characters. -/
def lstripChars (l : List Char) : List Char :=
  l.dropWhile Char.isWhitespace

/-- Drop trailing whitespace characters. -/
def rstripChars (l : List Char) : List Char :=
  (l.reverse.dropWhile Char.isWhitespace).reverse

/-- Python `str.strip()`: remove leading and trailing whitespace. -/
def pyStrip (s : String) : String :=
  String.mk (rstripChars (lstripChars s.toList))

/-- Parse a (sign-prefixed) decimal literal, as Python `float(string)` accepts.
Exponents, `inf` and `nan` are not modelled; such strings are rejected, which
only matters for inputs none of the verified claims exercise. -/
def parseDecimal (s : String) : Option ℚ :=
  let cs := s.toList
  let (sign, body) :=
    match cs with
    | '-' :: rest => ((-1 : ℚ), rest)
    | '+' :: rest => ((1 : ℚ), rest)
    | _ => ((1 : ℚ), cs)
  let intPart := body.takeWhile Char.isDigit
  let rest := body.dropWhile Char.isDigit
  match rest with
  | [] =>
      if intPart.isEmpty then Option.none
      else Option.some (sign * (natOfDigits intPart : ℚ))
  | c :: fracCs =>
      if c = '.' && fracCs.all Char.isDigit && !(intPart.isEmpty && fracCs.isEmpty)
      then Option.some (sign *
        ((natOfDigits intPart : ℚ) + (natOfDigits fracCs : ℚ) / ((10 : ℚ) ^ fracCs.length)))
      else Option.none

/-- Python `float(x)` coercion: numbers pass through, booleans become 0/1,
strings are parsed (after stripping whitespace) and raise `ValueError` when
unparsable, anything else raises `TypeError`. -/
def pyFloat : PyVal → Except PyErr ℚ
  | PyVal.num q => Except.ok q
  | PyVal.bool b => Except.ok (if b then 1 else 0)
  | PyVal.str s =>
      match parseDecimal (pyStrip s) with
      | Option.some q => Except.ok q
      | Option.none => Except.error PyErr.valueError
  | _ => Except.error PyErr.typeError

/-- Python `str(x)` coercion, as applied to the `word` field.  String values
pass through unchanged; the reprs of non-string values are abstracted to
fixed forms.  CPython reprs of numbers, booleans, `None`, lists and dicts
always contain a non-whitespace character, which is the only property the
normalizer observes about them. -/
def pyStr : PyVal → String
  | PyVal.str s => s
  | PyVal.none => "None"
  | PyVal.bool b => if b then "True" else "False"
  | PyVal.num q => toString q.num ++ "/" ++ toString q.den
  | PyVal.list _ => "[...]"
  | PyVal.dict _ => "\x7b...\x7d"

/-- Python truthiness, as used by `not result["segments"]`. -/
def pyTruthy : PyVal → Bool
  | PyVal.none => false
  | PyVal.bool b => b
  | PyVal.num q => q ≠ 0
  | PyVal.str s => s ≠ ""
  | PyVal.list xs => !xs.isEmpty
  | PyVal.dict fields => !fields.isEmpty

/-- Python subscript `v[key]` with a string key: a dict lookup that raises
`KeyError` when the key is missing and `TypeError` on non-dict values. -/
def pySubscript (v : PyVal) (key : String) : Except PyErr PyVal :=
  match v with
  | PyVal.dict fields =>
      match fields.lookup key with
      | Option.some x => Except.ok x
      | Option.none => Except.error (PyErr.keyError key)
  | _ => Except.error PyErr.typeError

/-- Modelled from the spec: `pycaps.common.TimeFragment` (§3), an immutable
(start, end) pair in seconds.  The `end > start` invariant is enforced by the
normalizer's construction, never by validation inside the type (§3). -/
structure TimeFragment where
  start : ℚ
  «end» : ℚ
deriving DecidableEq, Repr

/-- Modelled from the spec: `pycaps.common.Word` (§3), one TimeFragment plus
the word text. -/
structure Word where
  text : String
  time : TimeFragment
deriving DecidableEq, Repr

/-- Modelled from the spec: `pycaps.common.Line` (§3), one TimeFragment plus
an ordered word sequence (`line.words.add` appends). -/
structure Line where
  time : TimeFragment
  words : List Word
deriving DecidableEq, Repr

/-- Modelled from the spec: `pycaps.common.Segment` (§3), one TimeFragment
plus an ordered line sequence (`segment.lines.add` appends). -/
structure Segment where
  time : TimeFragment
  lines : List Line
deriving DecidableEq, Repr

/-- Modelled from the spec: `pycaps.common.Document` (§3), an ordered segment
sequence (`document.segments.add` appends). -/
structure Document where
  segments : List Segment
deriving DecidableEq, Repr

/-- The segment record's `words` field when it is usable: present and a list
(`"words" in segment_info and isinstance(segment_info["words"], list)`). -/
def usableWords : PyVal → Option (List PyVal)
  | PyVal.dict fields =>
      match fields.lookup "words" with
      | Option.some (PyVal.list ws) => Option.some ws
      | _ => Option.none
  | _ => Option.none

/-- The TimeFragment built from a coerced (start, end) pair after the
degenerate-span correction `if start == end: end = start + 0.01`. -/
def builtFragment (s e : ℚ) : TimeFragment :=
  { start := s, «end» := if s = e then s + 1 / 100 else e }

/-- Body of the inner word loop of `WhisperAudioTranscriber.transcribe` for
one `word_entry`: coerce the `word` field to a stripped string, skip the
entry when that string is empty, otherwise coerce `start`/`end`, correct a
degenerate span, and build the `Word`. -/
def processWord (word_entry : PyVal) : Except PyErr (Option Word) :=
  match pySubscript word_entry "word" with
  | Except.error err => Except.error err
  | Except.ok wv =>
    if pyStrip (pyStr wv) = "" then Except.ok Option.none
    else
      match pySubscript word_entry "start" with
      | Except.error err => Except.error err
      | Except.ok sv =>
        match pyFloat sv with
        | Except.error err => Except.error err
        | Except.ok word_start =>
          match pySubscript word_entry "end" with
          | Except.error err => Except.error err
          | Except.ok ev =>
            match pyFloat ev with
            | Except.error err => Except.error err
            | Except.ok raw_end =>
              Except.ok (Option.some
                { text := pyStrip (pyStr wv),
                  time := builtFragment word_start raw_end })

/-- The words appended to `line.words` by the inner loop, in source order;
a raised exception aborts the whole call. -/
def collectWords : List PyVal → Except PyErr (List Word)
  | [] => Except.ok []
  | we :: rest =>
      match processWord we with
      | Except.error err => Except.error err
      | Except.ok Option.none => collectWords rest
      | Except.ok (Option.some w) =>
          match collectWords rest with
          | Except.error err => Except.error err
          | Except.ok ws => Except.ok (w :: ws)

/-- Body of the outer segment loop of `WhisperAudioTranscriber.transcribe`
for one `segment_info`.  Returns `none` when the loop hits `continue` for a
segment with no usable `words` field: in the source that `continue` also
skips `document.segments.add(segment)`, so the segment is dropped.  The
no-words debug log interpolates `segment_info["text"]`, so that lookup (and
its possible `KeyError`) happens on that path. -/
def processSegment (segment_info : PyVal) : Except PyErr (Option Segment) :=
  match pySubscript segment_info "start" with
  | Except.error err => Except.error err
  | Except.ok sv =>
    match pyFloat sv with
    | Except.error err => Except.error err
    | Except.ok segment_start =>
      match pySubscript segment_info "end" with
      | Except.error err => Except.error err
      | Except.ok ev =>
        match pyFloat ev with
        | Except.error err => Except.error err
        | Except.ok raw_end =>
          match usableWords segment_info with
          | Option.none =>
              match pySubscript segment_info "text" with
              | Except.error err => Except.error err
              | Except.ok _ => Except.ok Option.none
          | Option.some word_entries =>
              match collectWords word_entries with
              | Except.error err => Except.error err
              | Except.ok words =>
                  Except.ok (Option.some
                    { time := builtFragment segment_start raw_end,
                      lines := [{ time := builtFragment segment_start raw_end,
                                  words := words }] })

/-- The segments appended to `document.segments` by the outer loop, in source
order. -/
def collectSegments : List PyVal → Except PyErr (List Segment)
  | [] => Except.ok []
  | si :: rest =>
      match processSegment si with
      | Except.error err => Except.error err
      | Except.ok Option.none => collectSegments rest
      | Except.ok (Option.some seg) =>
          match collectSegments rest with
          | Except.error err => Except.error err
          | Except.ok segs => Except.ok (seg :: segs)

/-- Method `WhisperAudioTranscriber.transcribe` from the point where the raw engine
result is in hand (the engine call itself is the external collaborator).
`result` is the raw result dict. -/
def transcribe (result : List (String × PyVal)) : Except PyErr Document :=
  match result.lookup "segments" with
  | Option.none => Except.ok { segments := [] }
  | Option.some segs =>
      if pyTruthy segs = false then Except.ok { segments := [] }
      else
        match segs with
        | PyVal.list segment_infos =>
            match collectSegments segment_infos with
            | Except.error err => Except.error err
            | Except.ok segments => Except.ok { segments := segments }
        | _ => Except.error PyErr.typeError

/-! ## The engine-loading side: `WhisperAudioTranscriber._get_model` -/

/-- The constructor state of `WhisperAudioTranscriber.__init__`.  `Model` is
the opaque type of Whisper model instances. -/
structure WhisperAudioTranscriber (Model : Type) where
  model_size : String
  language : Option String
  model : Option Model
  device : Option String

/-- Python string interpolation of an `Optional[str]`: `None` prints as
`"None"`. -/
def pyOptStr : Option String → String
  | Option.some s => s
  | Option.none => "None"

/-- The `RuntimeError` message built by `_get_model` when
`whisper.load_model` raises: it interpolates the model size, the device and
the underlying exception text. -/
def loadErrorMessage (model_size : String) (device : Option String) (e : String) : String :=
  "Error loading Whisper model (size: " ++ (model_size ++ (", device: " ++
    (pyOptStr device ++ ("): " ++ (e ++
      "\nEnsure Whisper is installed and models are available (or can be downloaded).")))))

/-- Python exceptions that can escape `_get_model`: the bare
`ModuleNotFoundError` raised by the `import whisper` statement when the
module is missing, or the `RuntimeError` wrapping a failed load. -/
inductive GetModelErr where
  | moduleNotFound (msg : String)
  | runtimeError (msg : String)
deriving DecidableEq, Repr

/-- Method `WhisperAudioTranscriber._get_model`.  After the cached-model
check comes `import whisper`, which sits outside the `try`: when the module
is missing (`importOk = false`) Python raises `ModuleNotFoundError` with its
fixed message naming only the module, and the `RuntimeError` wrapper below is
never reached.  The external call `whisper.load_model` is modelled by `load`,
where `load n` is the outcome of the n-th load attempt made during this call;
`_get_model` performs the single attempt `load 0` inside its `try`.  Caching
of the loaded model on `self` and the info logs are state the claims do not
concern. -/
def getModel {Model : Type} (t : WhisperAudioTranscriber Model)
    (importOk : Bool) (load : Nat → Except String Model) : Except GetModelErr Model :=
  match t.model with
  | Option.some m => Except.ok m
  | Option.none =>
      if importOk then
        match load 0 with
        | Except.ok m => Except.ok m
        | Except.error e =>
            Except.error (GetModelErr.runtimeError (loadErrorMessage t.model_size t.device e))
      else Except.error (GetModelErr.moduleNotFound "No module named \x27whisper\x27")

/-! ## Derived observations used by the statements -/

/-- Whether `pyFloat` succeeds on a value. -/
def floatOk (v : PyVal) : Bool :=
  match pyFloat v with
  | Except.ok _ => true
  | Except.error _ => false

/-- The coerced (start, end) pair of a record, when both fields are present
and coerce. -/
def coercedPair (fields : List (String × PyVal)) : Option (ℚ × ℚ) :=
  match fields.lookup "start", fields.lookup "end" with
  | Option.some sv, Option.some ev =>
      match pyFloat sv, pyFloat ev with
      | Except.ok s, Except.ok e => Option.some (s, e)
      | _, _ => Option.none
  | _, _ => Option.none

/-- The list of segment records of a raw result (empty when `segments` is
missing or not a list). -/
def segmentRecords (result : List (String × PyVal)) : List PyVal :=
  match result.lookup "segments" with
  | Option.some (PyVal.list xs) => xs
  | _ => []

/-- The dict word records inside a segment record's usable `words` list. -/
def wordRecords (si : PyVal) : List (List (String × PyVal)) :=
  match usableWords si with
  | Option.some ws =>
      ws.filterMap (fun we =>
        match we with
        | PyVal.dict g => Option.some g
        | _ => Option.none)
  | Option.none => []

/-- Every timed record (segment dict or word dict) of a raw result. -/
def inputRecords (result : List (String × PyVal)) : List (List (String × PyVal)) :=
  (segmentRecords result).flatMap (fun si =>
    match si with
    | PyVal.dict fields => fields :: wordRecords si
    | _ => [])

/-- The word produced from a word entry, when one is produced. -/
def wordOf (we : PyVal) : Option Word :=
  match processWord we with
  | Except.ok (Option.some w) => Option.some w
  | _ => Option.none

/-- All words of a document. -/
def docWords (d : Document) : List Word :=
  d.segments.flatMap (fun seg => seg.lines.flatMap Line.words)

/-- All TimeFragments of a segment: its own, its lines' and its words'. -/
def segmentFragments (seg : Segment) : List TimeFragment :=
  seg.time :: seg.lines.flatMap (fun l => l.time :: l.words.map Word.time)

/-- All TimeFragments of a document. -/
def docFragments (d : Document) : List TimeFragment :=
  d.segments.flatMap segmentFragments

/-- Well-formedness of a word record: `word` is present, and when its
stripped text is non-empty, `start`/`end` are present and coercible.  The
`word` value itself may have any type (`str()` accepts anything). -/
def wordWF (we : PyVal) : Bool :=
  match we with
  | PyVal.dict g =>
      match g.lookup "word" with
      | Option.some wv =>
          if pyStrip (pyStr wv) = "" then true
          else
            match g.lookup "start", g.lookup "end" with
            | Option.some sv, Option.some ev => floatOk sv && floatOk ev
            | _, _ => false
      | Option.none => false
  | _ => false

/-- Well-formedness of a segment record: coercible `start`/`end`, and either
a usable `words` list of well-formed word records, or (when `words` is
missing or not a list) a present `text` field. -/
def segWF (si : PyVal) : Bool :=
  match si with
  | PyVal.dict fields =>
      (match fields.lookup "start", fields.lookup "end" with
       | Option.some sv, Option.some ev => floatOk sv && floatOk ev
       | _, _ => false)
      &&
      (match fields.lookup "words" with
       | Option.some (PyVal.list ws) => ws.all wordWF
       | _ => (fields.lookup "text").isSome)
  | _ => false

/-- The record's coerced pair (when defined) satisfies start ≤ end. -/
def pairLE (fields : List (String × PyVal)) : Bool :=
  match coercedPair fields with
  | Option.some (s, e) => decide (s ≤ e)
  | Option.none => true

/-- The record's coerced pair (when defined) satisfies start < end. -/
def pairLT (fields : List (String × PyVal)) : Bool :=
  match coercedPair fields with
  | Option.some (s, e) => decide (s < e)
  | Option.none => true

/-! ## Supporting lemmas -/

theorem pySubscript_ok {v : PyVal} {k : String} {x : PyVal}
    (h : pySubscript v k = Except.ok x) :
    ∃ g, v = PyVal.dict g ∧ g.lookup k = Option.some x := by
  unfold pySubscript at h
  split at h
  next g =>
    split at h
    next y hy =>
      refine ⟨g, rfl, ?_⟩
      rw [hy]
      simpa using h
    next hy => simp at h
  next => simp at h

theorem pySubscript_dict_lookup (g : List (String × PyVal)) (k : String) (x : PyVal)
    (h : g.lookup k = Option.some x) : pySubscript (PyVal.dict g) k = Except.ok x := by
  simp [pySubscript, h]

theorem head?_dropWhile_false (p : Char → Bool) (l : List Char) :
    ∀ x, (l.dropWhile p).head? = Option.some x → p x = false := by
  induction l with
  | nil => intro x h; simp at h
  | cons a l ih =>
      intro x h
      rw [List.dropWhile_cons] at h
      split at h
      · exact ih x h
      · next hpa =>
          simp at h
          rw [← h]
          simpa using hpa

theorem dropWhile_eq_self_of_head? (p : Char → Bool) (l : List Char)
    (h : ∀ x, l.head? = Option.some x → p x = false) : l.dropWhile p = l := by
  cases l with
  | nil => rfl
  | cons a l =>
      have ha := h a rfl
      rw [List.dropWhile_cons]
      simp [ha]

theorem dropWhile_idem (p : Char → Bool) (l : List Char) :
    (l.dropWhile p).dropWhile p = l.dropWhile p :=
  dropWhile_eq_self_of_head? p _ (head?_dropWhile_false p l)

theorem rstripChars_prefixOf (l : List Char) : rstripChars l <+: l := by
  have h : (rstripChars l).reverse <:+ l.reverse := by
    unfold rstripChars
    rw [List.reverse_reverse]
    exact List.dropWhile_suffix _
  exact List.reverse_suffix.mp h

theorem head?_of_prefixOf {α : Type} {l₁ l₂ : List α} (h : l₁ <+: l₂) (x : α)
    (hx : l₁.head? = Option.some x) : l₂.head? = Option.some x := by
  obtain ⟨t, rfl⟩ := h
  cases l₁ with
  | nil => simp at hx
  | cons a l => simpa using hx

theorem rstripChars_idem (l : List Char) : rstripChars (rstripChars l) = rstripChars l := by
  unfold rstripChars
  rw [List.reverse_reverse, dropWhile_idem]

theorem lstrip_rstrip_lstrip (l : List Char) :
    lstripChars (rstripChars (lstripChars l)) = rstripChars (lstripChars l) := by
  unfold lstripChars
  apply dropWhile_eq_self_of_head?
  intro x hx
  exact head?_dropWhile_false Char.isWhitespace l x
    (head?_of_prefixOf (rstripChars_prefixOf (l.dropWhile Char.isWhitespace)) x hx)

/-- Stripping is idempotent: a stripped string strips to itself. -/
theorem pyStrip_idem (s : String) : pyStrip (pyStrip s) = pyStrip s := by
  show String.mk (rstripChars (lstripChars (rstripChars (lstripChars s.toList)))) =
    String.mk (rstripChars (lstripChars s.toList))
  rw [lstrip_rstrip_lstrip, rstripChars_idem]

theorem one_le_length_of_ne_empty (s : String) (h : s ≠ "") : 1 ≤ s.length := by
  cases s with
  | mk data =>
      cases data with
      | nil => exact absurd rfl h
      | cons a l =>
          show 1 ≤ (a :: l).length
          simp

theorem floatOk_ok {v : PyVal} (h : floatOk v = true) : ∃ q, pyFloat v = Except.ok q := by
  unfold floatOk at h
  split at h
  next q hq => exact ⟨q, hq⟩
  next => exact absurd h (by simp)

/-- Inversion: a produced `Word` comes from a dict record whose `word` field
strips to the word's (non-empty) text and whose coerced pair builds its
fragment. -/
theorem processWord_ok_some {we : PyVal} {w : Word}
    (h : processWord we = Except.ok (Option.some w)) :
    ∃ g, we = PyVal.dict g ∧
      (∃ wv, g.lookup "word" = Option.some wv ∧ w.text = pyStrip (pyStr wv)) ∧
      w.text ≠ "" ∧
      ∃ s e, coercedPair g = Option.some (s, e) ∧ w.time = builtFragment s e := by
  unfold processWord at h
  split at h
  · exact absurd h (by simp)
  next wv hwv =>
    split at h
    · exact absurd h (by simp)
    next hne =>
      split at h
      · exact absurd h (by simp)
      next sv hsv =>
        split at h
        · exact absurd h (by simp)
        next ws hws =>
          split at h
          · exact absurd h (by simp)
          next ev hev =>
            split at h
            · exact absurd h (by simp)
            next re hre =>
              simp only [Except.ok.injEq, Option.some.injEq] at h
              obtain ⟨g, rfl, hlw⟩ := pySubscript_ok hwv
              obtain ⟨g2, hg2, hls⟩ := pySubscript_ok hsv
              injection hg2 with hgg
              subst hgg
              obtain ⟨g3, hg3, hle⟩ := pySubscript_ok hev
              injection hg3 with hgg3
              subst hgg3
              refine ⟨g, rfl, ⟨wv, hlw, ?_⟩, ?_, ws, re, ?_, ?_⟩
              · rw [← h]
              · rw [← h]; exact hne
              · unfold coercedPair
                rw [hls, hle]
                simp [hws, hre]
              · rw [← h]

/-- Inversion: a produced `Segment` comes from a dict record with a coerced
pair, a usable `words` list, and the collected words; it owns exactly one
`Line` sharing its fragment. -/
theorem processSegment_ok_some {si : PyVal} {seg : Segment}
    (h : processSegment si = Except.ok (Option.some seg)) :
    ∃ fs, si = PyVal.dict fs ∧
      ∃ s e, coercedPair fs = Option.some (s, e) ∧
        ∃ ws words, usableWords (PyVal.dict fs) = Option.some ws ∧
          collectWords ws = Except.ok words ∧
          seg = { time := builtFragment s e,
                  lines := [{ time := builtFragment s e, words := words }] } := by
  unfold processSegment at h
  split at h
  · exact absurd h (by simp)
  next sv hsv =>
    split at h
    · exact absurd h (by simp)
    next s hs =>
      split at h
      · exact absurd h (by simp)
      next ev hev =>
        split at h
        · exact absurd h (by simp)
        next e he =>
          split at h
          next hnowords =>
              split at h
              · exact absurd h (by simp)
              · exact absurd h (by simp)
          next ws hws =>
              split at h
              · exact absurd h (by simp)
              next words hwords =>
                  simp only [Except.ok.injEq, Option.some.injEq] at h
                  obtain ⟨fs, rfl, hls⟩ := pySubscript_ok hsv
                  obtain ⟨g2, hg2, hle⟩ := pySubscript_ok hev
                  injection hg2 with hgg
                  subst hgg
                  refine ⟨fs, rfl, s, e, ?_, ws, words, hws, hwords, h.symm⟩
                  unfold coercedPair
                  rw [hls, hle]
                  simp [hs, he]

/-- Every collected word comes from some entry of the list. -/
theorem collectWords_ok_mem {ws : List PyVal} {words : List Word}
    (h : collectWords ws = Except.ok words) :
    ∀ w ∈ words, ∃ we ∈ ws, processWord we = Except.ok (Option.some w) := by
  induction ws generalizing words with
  | nil =>
      unfold collectWords at h
      simp only [Except.ok.injEq] at h
      subst h
      intro w hw
      exact absurd hw (by simp)
  | cons we rest ih =>
      unfold collectWords at h
      split at h
      · exact absurd h (by simp)
      next hnone =>
          intro w hw
          obtain ⟨x, hx, hpx⟩ := ih h w hw
          exact ⟨x, List.mem_cons_of_mem _ hx, hpx⟩
      next w0 hw0 =>
          split at h
          · exact absurd h (by simp)
          next ws2 hws2 =>
              simp only [Except.ok.injEq] at h
              subst h
              intro w hw
              rcases List.mem_cons.mp hw with rfl | hw2
              · exact ⟨we, List.mem_cons_self _ _, hw0⟩
              · obtain ⟨x, hx, hpx⟩ := ih hws2 w hw2
                exact ⟨x, List.mem_cons_of_mem _ hx, hpx⟩

/-- The collected words are exactly the order-preserving extraction
`ws.filterMap wordOf` of the entry list. -/
theorem collectWords_eq_filterMap {ws : List PyVal} {words : List Word}
    (h : collectWords ws = Except.ok words) : words = ws.filterMap wordOf := by
  induction ws generalizing words with
  | nil =>
      unfold collectWords at h
      simp only [Except.ok.injEq] at h
      subst h
      rfl
  | cons we rest ih =>
      unfold collectWords at h
      split at h
      · exact absurd h (by simp)
      next hnone =>
          have hwo : wordOf we = Option.none := by simp [wordOf, hnone]
          rw [List.filterMap_cons, hwo]
          exact ih h
      next w0 hw0 =>
          split at h
          · exact absurd h (by simp)
          next ws2 hws2 =>
              simp only [Except.ok.injEq] at h
              subst h
              have hwo : wordOf we = Option.some w0 := by simp [wordOf, hw0]
              rw [List.filterMap_cons, hwo]
              rw [ih hws2]

/-- A word entry that is skipped (`processWord` yields no word) contributes
nothing: the surrounding entries produce the same word list. -/
theorem collectWords_cons (we : PyVal) (rest : List PyVal) :
    collectWords (we :: rest) =
      match processWord we with
      | Except.error err => Except.error err
      | Except.ok Option.none => collectWords rest
      | Except.ok (Option.some w) =>
          match collectWords rest with
          | Except.error err => Except.error err
          | Except.ok ws => Except.ok (w :: ws) := rfl

theorem collectWords_skip {we : PyVal} (hwe : processWord we = Except.ok Option.none)
    (l₁ l₂ : List PyVal) : collectWords (l₁ ++ we :: l₂) = collectWords (l₁ ++ l₂) := by
  induction l₁ with
  | nil =>
      show collectWords (we :: l₂) = collectWords l₂
      rw [collectWords_cons, hwe]
  | cons x l ih =>
      show collectWords (x :: (l ++ we :: l₂)) = collectWords (x :: (l ++ l₂))
      rw [collectWords_cons, collectWords_cons, ih]

/-- Every collected segment comes from some record of the list. -/
theorem collectSegments_ok_mem {xs : List PyVal} {segs : List Segment}
    (h : collectSegments xs = Except.ok segs) :
    ∀ seg ∈ segs, ∃ si ∈ xs, processSegment si = Except.ok (Option.some seg) := by
  induction xs generalizing segs with
  | nil =>
      unfold collectSegments at h
      simp only [Except.ok.injEq] at h
      subst h
      intro seg hseg
      exact absurd hseg (by simp)
  | cons si rest ih =>
      unfold collectSegments at h
      split at h
      · exact absurd h (by simp)
      next hnone =>
          intro seg hseg
          obtain ⟨x, hx, hpx⟩ := ih h seg hseg
          exact ⟨x, List.mem_cons_of_mem _ hx, hpx⟩
      next seg0 hseg0 =>
          split at h
          · exact absurd h (by simp)
          next segs2 hsegs2 =>
              simp only [Except.ok.injEq] at h
              subst h
              intro seg hseg
              rcases List.mem_cons.mp hseg with rfl | hseg2
              · exact ⟨si, List.mem_cons_self _ _, hseg0⟩
              · obtain ⟨x, hx, hpx⟩ := ih hsegs2 seg hseg2
                exact ⟨x, List.mem_cons_of_mem _ hx, hpx⟩

/-- Every segment of a returned document comes from some segment record of
the raw result. -/
theorem transcribe_ok_mem {result : List (String × PyVal)} {d : Document}
    (h : transcribe result = Except.ok d) :
    ∀ seg ∈ d.segments, ∃ si ∈ segmentRecords result,
      processSegment si = Except.ok (Option.some seg) := by
  unfold transcribe at h
  split at h
  · simp only [Except.ok.injEq] at h
    subst h
    intro seg hseg
    exact absurd hseg (by simp)
  next segs hsegs =>
      split at h
      · simp only [Except.ok.injEq] at h
        subst h
        intro seg hseg
        exact absurd hseg (by simp)
      next htruthy =>
          split at h
          next xs =>
              split at h
              · exact absurd h (by simp)
              next segments hcs =>
                  simp only [Except.ok.injEq] at h
                  subst h
                  intro seg hseg
                  obtain ⟨si, hsi, hps⟩ := collectSegments_ok_mem hcs seg hseg
                  refine ⟨si, ?_, hps⟩
                  have hrec : segmentRecords result = xs := by
                    simp [segmentRecords, hsegs]
                  rw [hrec]
                  exact hsi
          next => exact absurd h (by simp)

theorem collectSegments_cons (si : PyVal) (rest : List PyVal) :
    collectSegments (si :: rest) =
      match processSegment si with
      | Except.error err => Except.error err
      | Except.ok Option.none => collectSegments rest
      | Except.ok (Option.some seg) =>
          match collectSegments rest with
          | Except.error err => Except.error err
          | Except.ok segs => Except.ok (seg :: segs) := rfl

/-- A well-formed word record never raises. -/
theorem processWord_wf {we : PyVal} (h : wordWF we = true) :
    ∃ r, processWord we = Except.ok r := by
  unfold wordWF at h
  split at h
  next g =>
      split at h
      next wv hwv =>
          split at h
          next hblank =>
              refine ⟨Option.none, ?_⟩
              simp only [processWord, pySubscript_dict_lookup g "word" wv hwv, hblank,
                if_true]
          next hnot =>
              split at h
              next sv ev hsv hev =>
                  simp only [Bool.and_eq_true] at h
                  obtain ⟨q1, hq1⟩ := floatOk_ok h.1
                  obtain ⟨q2, hq2⟩ := floatOk_ok h.2
                  refine ⟨Option.some
                    { text := pyStrip (pyStr wv), time := builtFragment q1 q2 }, ?_⟩
                  simp only [processWord, pySubscript_dict_lookup g "word" wv hwv,
                    pySubscript_dict_lookup g "start" sv hsv,
                    pySubscript_dict_lookup g "end" ev hev, hq1, hq2, hnot, if_false]
              next => exact absurd h (by simp)
      next => exact absurd h (by simp)
  next => exact absurd h (by simp)

/-- A list of well-formed word records never raises. -/
theorem collectWords_wf {ws : List PyVal} (h : ∀ we ∈ ws, wordWF we = true) :
    ∃ r, collectWords ws = Except.ok r := by
  induction ws with
  | nil => exact ⟨[], rfl⟩
  | cons we rest ih =>
      obtain ⟨r1, hr1⟩ := processWord_wf (h we (List.mem_cons_self _ _))
      obtain ⟨r2, hr2⟩ := ih (fun x hx => h x (List.mem_cons_of_mem _ hx))
      cases r1 with
      | none => exact ⟨r2, by rw [collectWords_cons, hr1, hr2]⟩
      | some w => exact ⟨w :: r2, by rw [collectWords_cons, hr1, hr2]⟩

/-- A well-formed segment record never raises. -/
theorem processSegment_wf {si : PyVal} (h : segWF si = true) :
    ∃ r, processSegment si = Except.ok r := by
  unfold segWF at h
  split at h
  next fields =>
      simp only [Bool.and_eq_true] at h
      obtain ⟨h1, h2⟩ := h
      split at h1
      next sv ev hsv hev =>
          simp only [Bool.and_eq_true] at h1
          obtain ⟨q1, hq1⟩ := floatOk_ok h1.1
          obtain ⟨q2, hq2⟩ := floatOk_ok h1.2
          split at h2
          next ws hws =>
              obtain ⟨words, hwords⟩ := collectWords_wf (fun we hwe =>
                List.all_eq_true.mp h2 we hwe)
              have hu : usableWords (PyVal.dict fields) = Option.some ws := by
                simp [usableWords, hws]
              refine ⟨Option.some
                { time := builtFragment q1 q2,
                  lines := [{ time := builtFragment q1 q2, words := words }] }, ?_⟩
              simp only [processSegment, pySubscript_dict_lookup fields "start" sv hsv,
                pySubscript_dict_lookup fields "end" ev hev, hq1, hq2, hu, hwords]
          next hother =>
              obtain ⟨tv, htv⟩ := Option.isSome_iff_exists.mp h2
              have hu : usableWords (PyVal.dict fields) = Option.none := by
                cases hl : List.lookup "words" fields with
                | none => simp [usableWords, hl]
                | some v =>
                    cases v with
                    | list ws => exact absurd hl (fun hc => hother ws hc)
                    | none => simp [usableWords, hl]
                    | bool b => simp [usableWords, hl]
                    | num q => simp [usableWords, hl]
                    | str s => simp [usableWords, hl]
                    | dict d => simp [usableWords, hl]
              refine ⟨Option.none, ?_⟩
              simp only [processSegment, pySubscript_dict_lookup fields "start" sv hsv,
                pySubscript_dict_lookup fields "end" ev hev, hq1, hq2, hu,
                pySubscript_dict_lookup fields "text" tv htv]
      next => exact absurd h1 (by simp)
  next => exact absurd h (by simp)

/-- A list of well-formed segment records never raises. -/
theorem collectSegments_wf {xs : List PyVal} (h : ∀ si ∈ xs, segWF si = true) :
    ∃ r, collectSegments xs = Except.ok r := by
  induction xs with
  | nil => exact ⟨[], rfl⟩
  | cons si rest ih =>
      obtain ⟨r1, hr1⟩ := processSegment_wf (h si (List.mem_cons_self _ _))
      obtain ⟨r2, hr2⟩ := ih (fun x hx => h x (List.mem_cons_of_mem _ hx))
      cases r1 with
      | none => exact ⟨r2, by rw [collectSegments_cons, hr1, hr2]⟩
      | some seg => exact ⟨seg :: r2, by rw [collectSegments_cons, hr1, hr2]⟩

theorem seg_mem_inputRecords {result : List (String × PyVal)}
    {fs : List (String × PyVal)} (h : PyVal.dict fs ∈ segmentRecords result) :
    fs ∈ inputRecords result := by
  unfold inputRecords
  rw [List.mem_flatMap]
  exact ⟨PyVal.dict fs, h, by simp⟩

theorem word_mem_inputRecords {result : List (String × PyVal)}
    {fs g : List (String × PyVal)} {ws : List PyVal}
    (hseg : PyVal.dict fs ∈ segmentRecords result)
    (hws : usableWords (PyVal.dict fs) = Option.some ws)
    (hg : PyVal.dict g ∈ ws) : g ∈ inputRecords result := by
  unfold inputRecords
  rw [List.mem_flatMap]
  refine ⟨PyVal.dict fs, hseg, ?_⟩
  show g ∈ fs :: wordRecords (PyVal.dict fs)
  refine List.mem_cons_of_mem _ ?_
  unfold wordRecords
  rw [hws]
  rw [List.mem_filterMap]
  exact ⟨PyVal.dict g, hg, rfl⟩

theorem builtFragment_start_lt_end {s e : ℚ} (h : s ≤ e) :
    (builtFragment s e).start < (builtFragment s e).«end» := by
  show s < if s = e then s + 1 / 100 else e
  by_cases hse : s = e
  · rw [if_pos hse]
    linarith
  · rw [if_neg hse]
    exact lt_of_le_of_ne h hse

theorem builtFragment_eq_of_ne {s e : ℚ} (h : s ≠ e) :
    builtFragment s e = { start := s, «end» := e } := by
  unfold builtFragment
  rw [if_neg h]

/-- A string that appears as a contiguous chunk of another (in the sense of
an append decomposition) appears contiguously in its character list. -/
theorem append_split_chunk {x m : String} (h : ∃ a b, m = a ++ (x ++ b)) :
    x.toList <:+: m.toList := by
  obtain ⟨a, b, rfl⟩ := h
  refine ⟨a.toList, b.toList, ?_⟩
  simp [String.toList, String.data_append, List.append_assoc]

theorem not_append_split {x m : String} (h : ¬ x.toList <:+: m.toList) :
    ¬ ∃ a b, m = a ++ (x ++ b) :=
  fun hex => h (append_split_chunk hex)

/-! ## The claims -/

/-- C1 (code bug witness): on the spec's Scenario 3 input
`{segments: [{start: 0.0, end: 2.0, text: "um"}]}` — one segment record with
no `words` key — `transcribe` returns a Document with zero segments: the
`continue` taken for a segment without word data also skips
`document.segments.add(segment)`, so the segment is dropped instead of kept
with an empty Line. -/
theorem wordless_segment_dropped :
    transcribe [("segments", PyVal.list [PyVal.dict
      [("start", PyVal.num 0), ("end", PyVal.num 2), ("text", PyVal.str "um")]])]
      = Except.ok { segments := [] } := rfl

/-- C2 (counterexample to the claim as stated): a segment record with a
missing `start` field makes `transcribe` raise a `KeyError` instead of
degrading gracefully. -/
theorem transcribe_missing_start_raises :
    transcribe [("segments", PyVal.list [PyVal.dict
      [("end", PyVal.num 2), ("text", PyVal.str "x")]])]
      = Except.error (PyErr.keyError "start") := rfl

/-- C2 (amended): `transcribe` returns a Document (raises nothing) when
every segment record is well formed in the weak sense of `segWF`: coercible
`start`/`end`, and either a usable `words` list whose entries have a `word`
key (of any type) plus coercible timestamps when their text is non-blank,
or—lacking usable `words`—a present `text` field.  In particular a missing
or non-list `words` field, a non-string `word` value and blank word text
never raise; only missing/uncoercible `start`/`end`, a missing `word` key,
or a missing `text` key on a wordless segment do. -/
theorem transcribe_wf_no_raise {result : List (String × PyVal)} {xs : List PyVal}
    (hseg : result.lookup "segments" = Option.some (PyVal.list xs))
    (hwf : ∀ si ∈ xs, segWF si = true) :
    ∃ d, transcribe result = Except.ok d := by
  obtain ⟨segs, hcs⟩ := collectSegments_wf hwf
  by_cases ht : pyTruthy (PyVal.list xs) = false
  · exact ⟨{ segments := [] }, by simp [transcribe, hseg, ht]⟩
  · exact ⟨{ segments := segs }, by simp [transcribe, hseg, hcs, ht]⟩

/-- Witness for the amended C2 at a concrete wordless-but-textful input. -/
theorem transcribe_wf_no_raise_witness :
    ∃ d, transcribe [("segments", PyVal.list [PyVal.dict
      [("start", PyVal.num 0), ("end", PyVal.num 1), ("text", PyVal.str "x")]])]
      = Except.ok d :=
  transcribe_wf_no_raise rfl (by
    intro si h
    rw [List.mem_singleton.mp h]
    rfl)

/-- C6: when the raw result has no `segments` key, or its `segments`
list is empty, `transcribe` returns the empty Document and raises nothing. -/
theorem transcribe_empty_result (result : List (String × PyVal)) :
    (result.lookup "segments" = Option.none →
        transcribe result = Except.ok { segments := [] }) ∧
    (result.lookup "segments" = Option.some (PyVal.list []) →
        transcribe result = Except.ok { segments := [] }) := by
  constructor
  · intro h
    unfold transcribe
    rw [h]
  · intro h
    unfold transcribe
    rw [h]
    rfl

/-- Witness for C6 at `{}` and at `{segments: []}`. -/
theorem transcribe_empty_result_witness :
    transcribe [] = Except.ok { segments := [] } ∧
    transcribe [("segments", PyVal.list [])] = Except.ok { segments := [] } :=
  ⟨(transcribe_empty_result []).1 rfl, (transcribe_empty_result _).2 rfl⟩

/-- C10: a word record whose `word` field strips to the empty string is
skipped without its `start`/`end` fields ever being read: the record `g` is
arbitrary apart from its `word` field, so the outcome is `ok none` even when
the timestamps are missing or malformed. -/
theorem blank_word_skips_without_reading_timestamps
    {g : List (String × PyVal)} {wv : PyVal}
    (hwv : g.lookup "word" = Option.some wv)
    (hblank : pyStrip (pyStr wv) = "") :
    processWord (PyVal.dict g) = Except.ok Option.none := by
  simp only [processWord, pySubscript_dict_lookup g "word" wv hwv, hblank, if_true]

/-- Witness for C10: an all-whitespace word with no timestamp fields at all
is skipped without error. -/
theorem blank_word_skips_witness :
    processWord (PyVal.dict [("word", PyVal.str "   ")]) = Except.ok Option.none :=
  blank_word_skips_without_reading_timestamps rfl rfl

/-- C3 (counterexample to the claim as stated): a segment record with
`start: 1.0, end: 0.0` (a decreasing span) is passed through uncorrected —
only `start == end` triggers the correction — so the returned document
contains a TimeFragment with `end < start`. -/
theorem decreasing_span_not_corrected :
    ∃ d, transcribe [("segments", PyVal.list [PyVal.dict
        [("start", PyVal.num 1), ("end", PyVal.num 0), ("text", PyVal.str "x"),
         ("words", PyVal.list [])]])] = Except.ok d ∧
      ∃ tf ∈ docFragments d, ¬ tf.start < tf.«end» := by
  refine ⟨{ segments := [{ time := { start := 1, «end» := 0 },
                           lines := [{ time := { start := 1, «end» := 0 }, words := [] }] }] },
    rfl, { start := 1, «end» := 0 }, ?_, by decide⟩
  simp [docFragments, segmentFragments]

/-- C3 (amended): every TimeFragment of the returned document satisfies
`end > start` strictly, provided every coerced input pair satisfies
`start ≤ end` (pairs with `start == end` included — they are corrected);
decreasing input pairs are outside the guarantee. -/
theorem transcribe_fragments_ordered {result : List (String × PyVal)} {d : Document}
    (h : transcribe result = Except.ok d)
    (hle : ∀ fs ∈ inputRecords result, pairLE fs = true) :
    ∀ tf ∈ docFragments d, tf.start < tf.«end» := by
  intro tf htf
  unfold docFragments at htf
  rw [List.mem_flatMap] at htf
  obtain ⟨seg, hseg, htf⟩ := htf
  obtain ⟨si, hsi, hps⟩ := transcribe_ok_mem h seg hseg
  obtain ⟨fs, rfl, s, e, hcp, ws, words, hws, hcw, rfl⟩ := processSegment_ok_some hps
  have hse : s ≤ e := by
    have hall := hle fs (seg_mem_inputRecords hsi)
    simp [pairLE, hcp] at hall
    exact hall
  simp only [segmentFragments, List.flatMap_cons, List.flatMap_nil, List.append_nil,
    List.mem_cons, List.mem_map] at htf
  rcases htf with rfl | htf
  · exact builtFragment_start_lt_end hse
  rcases htf with rfl | htf
  · exact builtFragment_start_lt_end hse
  obtain ⟨w, hw, rfl⟩ := htf
  obtain ⟨we, hwe, hpw⟩ := collectWords_ok_mem hcw w hw
  obtain ⟨g, rfl, htextda, hneda, s2, e2, hcp2, htime⟩ := processWord_ok_some hpw
  have hse2 : s2 ≤ e2 := by
    have hall := hle g (word_mem_inputRecords hsi hws hwe)
    simp [pairLE, hcp2] at hall
    exact hall
  rw [htime]
  exact builtFragment_start_lt_end hse2

/-- Witness for the amended C3 at a degenerate (start == end) input. -/
theorem transcribe_fragments_ordered_witness :
    ({ start := 1, «end» := 1 + 1 / 100 } : TimeFragment).start
      < ({ start := 1, «end» := 1 + 1 / 100 } : TimeFragment).«end» :=
  @transcribe_fragments_ordered
    [("segments", PyVal.list [PyVal.dict [("start", PyVal.num 1), ("end", PyVal.num 1),
      ("words", PyVal.list [])]])]
    { segments := [{ time := { start := 1, «end» := 1 + 1 / 100 },
                     lines := [{ time := { start := 1, «end» := 1 + 1 / 100 }, words := [] }] }] }
    rfl (by decide)
    { start := 1, «end» := 1 + 1 / 100 }
    (by simp [docFragments, segmentFragments])

/-- C4: a record whose coerced start equals its coerced end has its
fragment built from the corrected pair `(start, start + 0.01)`, at segment
and word level alike; and such a (well-formed) degenerate record is still
processed successfully, never rejected for its span. -/
theorem degenerate_span_corrected :
    (∀ fs s (seg : Segment), coercedPair fs = Option.some (s, s) →
        processSegment (PyVal.dict fs) = Except.ok (Option.some seg) →
        seg.time = { start := s, «end» := s + 1 / 100 }) ∧
    (∀ g s (w : Word), coercedPair g = Option.some (s, s) →
        processWord (PyVal.dict g) = Except.ok (Option.some w) →
        w.time = { start := s, «end» := s + 1 / 100 }) ∧
    (∀ fs s, coercedPair fs = Option.some (s, s) → segWF (PyVal.dict fs) = true →
        ∃ r, processSegment (PyVal.dict fs) = Except.ok r) ∧
    (∀ g s, coercedPair g = Option.some (s, s) → wordWF (PyVal.dict g) = true →
        ∃ r, processWord (PyVal.dict g) = Except.ok r) := by
  refine ⟨?_, ?_, ?_, ?_⟩
  · intro fs s seg hcp hps
    obtain ⟨fs2, heq, s2, e2, hcp2, ws, words, hws, hcw, rfl⟩ := processSegment_ok_some hps
    injection heq with hf
    subst hf
    rw [hcp] at hcp2
    simp only [Option.some.injEq, Prod.mk.injEq] at hcp2
    obtain ⟨hs2, he2⟩ := hcp2
    subst hs2
    subst he2
    show builtFragment s s = { start := s, «end» := s + 1 / 100 }
    unfold builtFragment
    rw [if_pos rfl]
  · intro g s w hcp hpw
    obtain ⟨g2, heq, htext, hne, s2, e2, hcp2, htime⟩ := processWord_ok_some hpw
    injection heq with hg
    subst hg
    rw [hcp] at hcp2
    simp only [Option.some.injEq, Prod.mk.injEq] at hcp2
    obtain ⟨hs2, he2⟩ := hcp2
    subst hs2
    subst he2
    rw [htime]
    unfold builtFragment
    rw [if_pos rfl]
  · intro fs s hcp hwf
    exact processSegment_wf hwf
  · intro g s hcp hwf
    exact processWord_wf hwf

/-- Witness for C4: concrete degenerate segment and word records. -/
theorem degenerate_span_corrected_witness :
    (∃ seg : Segment,
        processSegment (PyVal.dict [("start", PyVal.num 1), ("end", PyVal.num 1),
          ("words", PyVal.list [])]) = Except.ok (Option.some seg) ∧
        seg.time = { start := (1 : ℚ), «end» := 1 + 1 / 100 }) ∧
    (∃ w : Word,
        processWord (PyVal.dict [("word", PyVal.str "hi"), ("start", PyVal.num 2),
          ("end", PyVal.num 2)]) = Except.ok (Option.some w) ∧
        w.time = { start := (2 : ℚ), «end» := 2 + 1 / 100 }) :=
  ⟨⟨_, rfl, degenerate_span_corrected.1 [("start", PyVal.num 1), ("end", PyVal.num 1),
      ("words", PyVal.list [])] 1 _ rfl rfl⟩,
   ⟨_, rfl, degenerate_span_corrected.2.1 [("word", PyVal.str "hi"), ("start", PyVal.num 2),
      ("end", PyVal.num 2)] 2 _ rfl rfl⟩⟩

/-- C5: every Word of a returned document has trimmed text of length at
least 1 (its text is already stripped and non-empty), and a word entry whose
processing yields no word (in particular a blank one) contributes nothing:
the surrounding entries produce the same words, in the same order. -/
theorem word_text_nonblank_and_blank_skipped :
    (∀ (result : List (String × PyVal)) (d : Document),
        transcribe result = Except.ok d →
        ∀ w ∈ docWords d, 1 ≤ (pyStrip w.text).length) ∧
    (∀ we, processWord we = Except.ok Option.none →
        ∀ l₁ l₂, collectWords (l₁ ++ we :: l₂) = collectWords (l₁ ++ l₂)) := by
  constructor
  · intro result d h w hw
    unfold docWords at hw
    rw [List.mem_flatMap] at hw
    obtain ⟨seg, hseg, hw⟩ := hw
    rw [List.mem_flatMap] at hw
    obtain ⟨line, hline, hw⟩ := hw
    obtain ⟨si, hsi, hps⟩ := transcribe_ok_mem h seg hseg
    obtain ⟨fs, rfl, s, e, hcp, ws, words, hws, hcw, rfl⟩ := processSegment_ok_some hps
    simp only [List.mem_singleton] at hline
    subst hline
    obtain ⟨we, hwe, hpw⟩ := collectWords_ok_mem hcw w hw
    obtain ⟨g, rfl, ⟨wv, hlw, htext⟩, hne, hrest⟩ := processWord_ok_some hpw
    rw [htext, pyStrip_idem]
    apply one_le_length_of_ne_empty
    rw [← htext]
    exact hne
  · intro we hwe l₁ l₂
    exact collectWords_skip hwe l₁ l₂

/-- Witness for C5: a produced word, and a blank entry dropped between two
valid entries. -/
theorem word_text_nonblank_witness :
    (1 ≤ (pyStrip ({ text := "hi", time := { start := 0, «end» := 1 } } : Word).text).length) ∧
    collectWords ([PyVal.dict [("word", PyVal.str "a"), ("start", PyVal.num 0), ("end", PyVal.num 1)]]
        ++ PyVal.dict [("word", PyVal.str "   ")]
          :: [PyVal.dict [("word", PyVal.str "b"), ("start", PyVal.num 1), ("end", PyVal.num 2)]])
      = collectWords ([PyVal.dict [("word", PyVal.str "a"), ("start", PyVal.num 0), ("end", PyVal.num 1)]]
        ++ [PyVal.dict [("word", PyVal.str "b"), ("start", PyVal.num 1), ("end", PyVal.num 2)]]) :=
  ⟨word_text_nonblank_and_blank_skipped.1
      [("segments", PyVal.list [PyVal.dict [("start", PyVal.num 0), ("end", PyVal.num 2),
        ("words", PyVal.list [PyVal.dict [("word", PyVal.str " hi "), ("start", PyVal.num 0),
          ("end", PyVal.num 1)]])]])]
      { segments := [{ time := { start := 0, «end» := 2 },
                       lines := [{ time := { start := 0, «end» := 2 },
                                   words := [{ text := "hi", time := { start := 0, «end» := 1 } }] }] }] }
      rfl { text := "hi", time := { start := 0, «end» := 1 } } (by simp [docWords]),
   word_text_nonblank_and_blank_skipped.2 (PyVal.dict [("word", PyVal.str "   ")]) rfl _ _⟩

/-- C7: when every coerced input pair already satisfies `end > start`,
every TimeFragment of the returned document is exactly the coerced pair of
its source record — no correction is applied to any of them. -/
theorem transcribe_no_spurious_correction {result : List (String × PyVal)} {d : Document}
    (h : transcribe result = Except.ok d)
    (hlt : ∀ fs ∈ inputRecords result, pairLT fs = true) :
    ∀ tf ∈ docFragments d, ∃ fs ∈ inputRecords result,
      coercedPair fs = Option.some (tf.start, tf.«end») := by
  intro tf htf
  unfold docFragments at htf
  rw [List.mem_flatMap] at htf
  obtain ⟨seg, hseg, htf⟩ := htf
  obtain ⟨si, hsi, hps⟩ := transcribe_ok_mem h seg hseg
  obtain ⟨fs, rfl, s, e, hcp, ws, words, hws, hcw, rfl⟩ := processSegment_ok_some hps
  have hse : s < e := by
    have hall := hlt fs (seg_mem_inputRecords hsi)
    simp [pairLT, hcp] at hall
    exact hall
  have hfrag : builtFragment s e = { start := s, «end» := e } :=
    builtFragment_eq_of_ne (ne_of_lt hse)
  simp only [segmentFragments, List.flatMap_cons, List.flatMap_nil, List.append_nil,
    List.mem_cons, List.mem_map] at htf
  rcases htf with rfl | htf
  · refine ⟨fs, seg_mem_inputRecords hsi, ?_⟩
    rw [hfrag]
    exact hcp
  rcases htf with rfl | htf
  · refine ⟨fs, seg_mem_inputRecords hsi, ?_⟩
    rw [hfrag]
    exact hcp
  obtain ⟨w, hw, rfl⟩ := htf
  obtain ⟨we, hwe, hpw⟩ := collectWords_ok_mem hcw w hw
  obtain ⟨g, rfl, htextda, hneda, s2, e2, hcp2, htime⟩ := processWord_ok_some hpw
  have hse2 : s2 < e2 := by
    have hall := hlt g (word_mem_inputRecords hsi hws hwe)
    simp [pairLT, hcp2] at hall
    exact hall
  refine ⟨g, word_mem_inputRecords hsi hws hwe, ?_⟩
  rw [htime, builtFragment_eq_of_ne (ne_of_lt hse2)]
  exact hcp2

/-- Witness for C7 at an already-ordered input. -/
theorem transcribe_no_spurious_correction_witness :
    ∃ fs ∈ inputRecords [("segments", PyVal.list [PyVal.dict
        [("start", PyVal.num 1), ("end", PyVal.num 2), ("text", PyVal.str "x"),
         ("words", PyVal.list [])]])],
      coercedPair fs = Option.some
        (({ start := 1, «end» := 2 } : TimeFragment).start,
         ({ start := 1, «end» := 2 } : TimeFragment).«end») :=
  @transcribe_no_spurious_correction
    [("segments", PyVal.list [PyVal.dict
      [("start", PyVal.num 1), ("end", PyVal.num 2), ("text", PyVal.str "x"),
       ("words", PyVal.list [])]])]
    { segments := [{ time := { start := 1, «end» := 2 },
                     lines := [{ time := { start := 1, «end» := 2 }, words := [] }] }] }
    rfl (by decide)
    { start := 1, «end» := 2 }
    (by simp [docFragments, segmentFragments])

/-- C8: each Segment of a returned document owns exactly one Line, the
Line's TimeFragment equals the Segment's, and the Line's words are the
order-preserving extraction (`filterMap wordOf`) of its source record's word
entries — never re-sorted. -/
theorem segment_owns_single_line {result : List (String × PyVal)} {d : Document}
    (h : transcribe result = Except.ok d) :
    ∀ seg ∈ d.segments, ∃ line, seg.lines = [line] ∧ line.time = seg.time ∧
      ∃ si ∈ segmentRecords result, ∃ ws, usableWords si = Option.some ws ∧
        line.words = ws.filterMap wordOf := by
  intro seg hseg
  obtain ⟨si, hsi, hps⟩ := transcribe_ok_mem h seg hseg
  obtain ⟨fs, rfl, s, e, hcp, ws, words, hws, hcw, rfl⟩ := processSegment_ok_some hps
  exact ⟨{ time := builtFragment s e, words := words }, rfl, rfl,
    PyVal.dict fs, hsi, ws, hws, collectWords_eq_filterMap hcw⟩

/-- Witness for C8 at a one-segment input. -/
theorem segment_owns_single_line_witness :
    ∃ line : Line,
      ({ time := { start := (3 : ℚ), «end» := 4 },
         lines := [{ time := { start := (3 : ℚ), «end» := 4 }, words := [] }] } : Segment).lines
        = [line] ∧
      line.time = ({ time := { start := (3 : ℚ), «end» := 4 },
                     lines := [{ time := { start := (3 : ℚ), «end» := 4 },
                                 words := [] }] } : Segment).time := by
  obtain ⟨line, h1, h2, hrest⟩ :=
    @segment_owns_single_line
      [("segments", PyVal.list [PyVal.dict
        [("start", PyVal.num 3), ("end", PyVal.num 4), ("words", PyVal.list [])]])]
      { segments := [{ time := { start := 3, «end» := 4 },
                       lines := [{ time := { start := 3, «end» := 4 }, words := [] }] }] }
      rfl
      { time := { start := 3, «end» := 4 },
        lines := [{ time := { start := 3, «end» := 4 }, words := [] }] }
      (by simp)
  exact ⟨line, h1, h2⟩

/-- C9 (counterexample to the claim as stated): with no pre-loaded model and
the `import whisper` statement failing (whisper not installed), `_get_model`
raises the bare `ModuleNotFoundError`: two transcribers with different model
sizes and devices raise the identical failure, and its fixed message contains
neither the model size nor the device — no engine identity and no device
context are carried on this failure path. -/
theorem getModel_import_failure_no_context :
    getModel (WhisperAudioTranscriber.mk "base" Option.none Option.none
        (Option.some "cuda") : WhisperAudioTranscriber Unit) false
        (fun _ => Except.error "unused")
      = Except.error (GetModelErr.moduleNotFound "No module named \x27whisper\x27") ∧
    getModel (WhisperAudioTranscriber.mk "tiny" Option.none Option.none
        (Option.some "cpu") : WhisperAudioTranscriber Unit) false
        (fun _ => Except.error "unused")
      = getModel (WhisperAudioTranscriber.mk "base" Option.none Option.none
        (Option.some "cuda") : WhisperAudioTranscriber Unit) false
        (fun _ => Except.error "unused") ∧
    (¬ ∃ a b, "No module named \x27whisper\x27" = a ++ ("base" ++ b)) ∧
    (¬ ∃ a b, "No module named \x27whisper\x27" = a ++ ("cuda" ++ b)) :=
  ⟨rfl, rfl, not_append_split (by decide), not_append_split (by decide)⟩

/-- C9 (amended): with no pre-loaded model, a failing `import whisper`
raises the context-free `ModuleNotFoundError`, while a failing load (import
having succeeded) raises the `RuntimeError` whose message carries the model
size (engine identity) and the device context; both paths raise rather than
return a model, and the outcome depends only on the first (single) load
attempt — the load is never retried. -/
theorem getModel_failure_paths {Model : Type} (t : WhisperAudioTranscriber Model)
    (importOk : Bool) (load : Nat → Except String Model) (e : String)
    (hm : t.model = Option.none) (hl : load 0 = Except.error e) :
    (importOk = false →
        getModel t importOk load
          = Except.error (GetModelErr.moduleNotFound "No module named \x27whisper\x27")) ∧
    (importOk = true →
        getModel t importOk load
          = Except.error (GetModelErr.runtimeError (loadErrorMessage t.model_size t.device e))) ∧
    (∃ a b, loadErrorMessage t.model_size t.device e = a ++ (t.model_size ++ b)) ∧
    (∃ a b, loadErrorMessage t.model_size t.device e = a ++ (pyOptStr t.device ++ b)) ∧
    (∀ load2 : Nat → Except String Model, load2 0 = load 0 →
        getModel t importOk load2 = getModel t importOk load) := by
  refine ⟨?_, ?_, ?_, ?_, ?_⟩
  · intro hio
    subst hio
    unfold getModel
    rw [hm]
    rfl
  · intro hio
    subst hio
    unfold getModel
    rw [hm, hl]
    rfl
  · exact ⟨"Error loading Whisper model (size: ",
      ", device: " ++ (pyOptStr t.device ++ ("): " ++ (e ++
        "\nEnsure Whisper is installed and models are available (or can be downloaded)."))),
      rfl⟩
  · refine ⟨"Error loading Whisper model (size: " ++ (t.model_size ++ ", device: "),
      "): " ++ (e ++
        "\nEnsure Whisper is installed and models are available (or can be downloaded)."), ?_⟩
    simp [loadErrorMessage, String.append_assoc]
  · intro load2 h2
    unfold getModel
    rw [hm, h2]

/-- Witness for the amended C9: both failure paths at concrete inputs. -/
theorem getModel_failure_paths_witness :
    getModel (WhisperAudioTranscriber.mk "base" Option.none Option.none
        (Option.some "cpu") : WhisperAudioTranscriber Unit) true
        (fun _ => Except.error "boom")
      = Except.error (GetModelErr.runtimeError
          (loadErrorMessage "base" (Option.some "cpu") "boom")) ∧
    getModel (WhisperAudioTranscriber.mk "base" Option.none Option.none
        (Option.some "cpu") : WhisperAudioTranscriber Unit) false
        (fun _ => Except.error "boom")
      = Except.error (GetModelErr.moduleNotFound "No module named \x27whisper\x27") :=
  ⟨(getModel_failure_paths (WhisperAudioTranscriber.mk "base" Option.none Option.none
      (Option.some "cpu")) true (fun _ => (Except.error "boom" : Except String Unit))
      "boom" rfl rfl).2.1 rfl,
   (getModel_failure_paths (WhisperAudioTranscriber.mk "base" Option.none Option.none
      (Option.some "cpu")) false (fun _ => (Except.error "boom" : Except String Unit))
      "boom" rfl rfl).1 rfl⟩

end Pycaps
